import Mathlib

/-!
Verification of the core algorithms of the nautilus arbitrage trader.

Each section shallowly embeds one piece of the Python source:
* `RedstoneGw` — the pairwise arbitrage detector
  (`redstone_gw_client.py`, `_find_arbitrage_opportunities`);
* `FeedConn` — the reconnect/backoff loop and the disconnect hook of the
  websocket feed clients (`hyperliquid_client.py`, `redstone_client.py`);
* `Normalize` — the per-venue quote normalizers
  (`_handle_ticker_data`, `_handle_all_mids_data`, `_process_message`);
* `Strategy` — the opportunity gate of the arbitrage strategy
  (`arbitrage_strategy.py`);
* `DataClient` — the polling arbitrage data client
  (`arbitrage_data_client.py`);
* `MockExec` — the randomized execution simulator
  (`mock_exec_client.py`, `_simulate_order_fill`).

Prices, probability draws and timestamps are modelled over `ℚ`/`ℤ`
(Python floats and ints used by the source, taken at exact arithmetic);
Python exceptions are modelled with `Option`/`Except`; the pseudo-random
draws of the simulator are explicit arguments.
-/

namespace RedstoneGw

/-- One entry of the `source_prices` dict built by `_extract_source_prices`:
a price source name together with its extracted price. -/
structure SourcePrice where
  source : String
  price : ℚ
deriving DecidableEq, Repr

/-- The tuple `(buy_source, sell_source, buy_price, sell_price, price_diff_pct)`
appended by `_find_arbitrage_opportunities` for a qualifying pair. -/
structure Opportunity where
  buy_source : String
  sell_source : String
  buy_price : ℚ
  sell_price : ℚ
  price_diff_pct : ℚ
deriving DecidableEq, Repr

/-- Body of the inner loop of `_find_arbitrage_opportunities` for one pair of
sources: guard `min_price > 0`, compute
`price_diff_pct = (max_price - min_price) / min_price`, and when it reaches
`profit_threshold` (inclusive) emit the opportunity with the cheaper source
as the buy side. -/
def pairOpportunity (threshold : ℚ) (s1 s2 : SourcePrice) : Option Opportunity :=
  let min_price := min s1.price s2.price
  let max_price := max s1.price s2.price
  if 0 < min_price then
    let price_diff_pct := (max_price - min_price) / min_price
    if threshold ≤ price_diff_pct then
      some (if s1.price < s2.price then
        { buy_source := s1.source, sell_source := s2.source,
          buy_price := s1.price, sell_price := s2.price,
          price_diff_pct := price_diff_pct }
      else
        { buy_source := s2.source, sell_source := s1.source,
          buy_price := s2.price, sell_price := s1.price,
          price_diff_pct := price_diff_pct })
    else
      none
  else
    none

/-- `_find_arbitrage_opportunities`: the nested loops `for i in range(len(sources)),
for j in range(i+1, len(sources))` visit every unordered pair exactly once, in
iteration order of the price dict; each visit runs `pairOpportunity`. -/
def find_arbitrage_opportunities (threshold : ℚ) : List SourcePrice → List Opportunity
  | [] => []
  | s :: rest =>
      rest.filterMap (pairOpportunity threshold s) ++ find_arbitrage_opportunities threshold rest

/-- An emitted opportunity concerns the unordered venue pair `{v1, v2}`. -/
def pairMatches (v1 v2 : String) (o : Opportunity) : Bool :=
  (o.buy_source == v1 && o.sell_source == v2) || (o.buy_source == v2 && o.sell_source == v1)

lemma pairMatches_symm (v1 v2 : String) (o : Opportunity) :
    pairMatches v1 v2 o = pairMatches v2 v1 o := by
  simp only [pairMatches]
  exact Bool.or_comm _ _

/-- The two sources of any emitted pair opportunity are the two inputs,
with the buy side the cheaper one. -/
lemma pairOpportunity_sources {threshold : ℚ} {s1 s2 : SourcePrice} {o : Opportunity}
    (h : pairOpportunity threshold s1 s2 = some o) :
    (o.buy_source = s1.source ∧ o.sell_source = s2.source) ∨
    (o.buy_source = s2.source ∧ o.sell_source = s1.source) := by
  unfold pairOpportunity at h
  by_cases h0 : (0 : ℚ) < min s1.price s2.price
  · simp only [h0, if_true] at h
    by_cases ht : threshold ≤ (max s1.price s2.price - min s1.price s2.price) / min s1.price s2.price
    · simp only [ht, if_true, Option.some.injEq] at h
      by_cases hlt : s1.price < s2.price
      · simp only [hlt, if_true] at h
        left
        exact ⟨by rw [← h], by rw [← h]⟩
      · simp only [hlt, if_false] at h
        right
        exact ⟨by rw [← h], by rw [← h]⟩
    · simp [ht] at h
  · simp [h0] at h

/-- Every opportunity emitted by the detector names only sources present in
the snapshot. -/
lemma find_arbitrage_sources {threshold : ℚ} {ps : List SourcePrice} {o : Opportunity}
    (h : o ∈ find_arbitrage_opportunities threshold ps) :
    o.buy_source ∈ ps.map SourcePrice.source ∧ o.sell_source ∈ ps.map SourcePrice.source := by
  induction ps with
  | nil => simp [find_arbitrage_opportunities] at h
  | cons s rest ih =>
      simp only [find_arbitrage_opportunities, List.mem_append] at h
      rcases h with h | h
      · rcases List.mem_filterMap.mp h with ⟨t, ht, hsome⟩
        rcases pairOpportunity_sources hsome with ⟨hb, hs⟩ | ⟨hb, hs⟩
        · constructor
          · simp [hb]
          · simp only [List.map_cons, List.mem_cons]
            right
            exact hs ▸ List.mem_map_of_mem SourcePrice.source ht
        · constructor
          · simp only [List.map_cons, List.mem_cons]
            right
            exact hb ▸ List.mem_map_of_mem SourcePrice.source ht
          · simp [hs]
      · rcases ih h with ⟨hb, hs⟩
        simp only [List.map_cons]
        exact ⟨List.mem_cons_of_mem _ hb, List.mem_cons_of_mem _ hs⟩

end RedstoneGw

namespace RedstoneGw

lemma pairMatches_iff {v1 v2 : String} {o : Opportunity} :
    pairMatches v1 v2 o = true ↔
      (o.buy_source = v1 ∧ o.sell_source = v2) ∨ (o.buy_source = v2 ∧ o.sell_source = v1) := by
  simp [pairMatches]

/-- A fixed outer source `s` contributes no opportunity on the pair
`{s.source, v2}` when no remaining source is named `v2`. -/
lemma filter_pair_nil {θ : ℚ} {s : SourcePrice} {v2 : String} {rest : List SourcePrice}
    (h1 : s.source ≠ v2) (h2 : ∀ t ∈ rest, t.source ≠ v2) :
    (rest.filterMap (pairOpportunity θ s)).filter (pairMatches s.source v2) = [] := by
  rw [List.filter_eq_nil_iff]
  intro o ho
  rcases List.mem_filterMap.mp ho with ⟨t, ht, hsome⟩
  rw [Bool.not_eq_true, Bool.eq_false_iff]
  intro hmatch
  rcases pairMatches_iff.mp hmatch with ⟨hb, hs⟩ | ⟨hb, hs⟩ <;>
    rcases pairOpportunity_sources hsome with ⟨hb2, hs2⟩ | ⟨hb2, hs2⟩
  · exact h2 t ht (hs2 ▸ hs)
  · exact h1 (hs2 ▸ hs)
  · exact h1 (hb2 ▸ hb)
  · exact h2 t ht (hb2 ▸ hb)

/-- The detector emits nothing on a pair whose first venue is absent from the
snapshot. -/
lemma filter_find_nil_left {θ : ℚ} {ps : List SourcePrice} {v1 v2 : String}
    (h : v1 ∉ ps.map SourcePrice.source) :
    (find_arbitrage_opportunities θ ps).filter (pairMatches v1 v2) = [] := by
  rw [List.filter_eq_nil_iff]
  intro o ho
  rcases find_arbitrage_sources ho with ⟨hb, hs⟩
  rw [Bool.not_eq_true, Bool.eq_false_iff]
  intro hmatch
  rcases pairMatches_iff.mp hmatch with ⟨hb1, _⟩ | ⟨_, hs1⟩
  · exact h (hb1 ▸ hb)
  · exact h (hs1 ▸ hs)

lemma filter_find_nil_right {θ : ℚ} {ps : List SourcePrice} {v1 v2 : String}
    (h : v2 ∉ ps.map SourcePrice.source) :
    (find_arbitrage_opportunities θ ps).filter (pairMatches v1 v2) = [] := by
  have hfun : pairMatches v1 v2 = pairMatches v2 v1 := by
    funext o
    exact pairMatches_symm v1 v2 o
  rw [hfun]
  exact filter_find_nil_left h

/-- With pairwise-distinct source names, the inner loop for outer source `s`
contributes to the pair `{s.source, q2.source}` exactly the result of the
single comparison of `s` against `q2`. -/
lemma head_contrib {θ : ℚ} {s q2 : SourcePrice} {rest : List SourcePrice}
    (hnd : (rest.map SourcePrice.source).Nodup)
    (hq2 : q2 ∈ rest)
    (hneq : s.source ≠ q2.source)
    (hsnot : s.source ∉ rest.map SourcePrice.source) :
    (rest.filterMap (pairOpportunity θ s)).filter (pairMatches s.source q2.source)
      = (pairOpportunity θ s q2).toList := by
  induction rest with
  | nil => exact absurd hq2 (List.not_mem_nil q2)
  | cons t rest ih =>
      simp only [List.map_cons, List.nodup_cons] at hnd
      simp only [List.map_cons, List.mem_cons, not_or] at hsnot
      rcases List.mem_cons.mp hq2 with rfl | hmem
      · -- the head of the remaining sources is the second venue itself
        have htail : ∀ u ∈ rest, u.source ≠ q2.source := by
          intro u hu heq
          exact hnd.1 (heq ▸ List.mem_map_of_mem _ hu)
        cases hpo : pairOpportunity θ s q2 with
        | none =>
            rw [List.filterMap_cons_none hpo]
            simp only [Option.toList_none]
            exact filter_pair_nil hneq htail
        | some o =>
            have hmatch : pairMatches s.source q2.source o = true := by
              rcases pairOpportunity_sources hpo with ⟨hb, hs⟩ | ⟨hb, hs⟩
              · exact pairMatches_iff.mpr (Or.inl ⟨hb, hs⟩)
              · exact pairMatches_iff.mpr (Or.inr ⟨hb, hs⟩)
            rw [List.filterMap_cons_some hpo, List.filter_cons_of_pos hmatch,
              filter_pair_nil hneq htail]
            rfl
      · -- the head is some other source; it cannot touch the pair
        have htneq : t.source ≠ q2.source := by
          intro heq
          exact hnd.1 (heq ▸ List.mem_map_of_mem _ hmem)
        have ihres := ih hnd.2 hmem hsnot.2
        cases hpo : pairOpportunity θ s t with
        | none =>
            rw [List.filterMap_cons_none hpo]
            exact ihres
        | some o =>
            have hmatch : pairMatches s.source q2.source o = false := by
              rw [Bool.eq_false_iff]
              intro hm
              rcases pairMatches_iff.mp hm with ⟨hb, hs⟩ | ⟨hb, hs⟩ <;>
                rcases pairOpportunity_sources hpo with ⟨hb2, hs2⟩ | ⟨hb2, hs2⟩
              · exact htneq (hs2 ▸ hs)
              · exact hsnot.1 (hb2 ▸ hb.symm)
              · exact hneq (hb2 ▸ hb)
              · exact htneq (hb2 ▸ hb)
            rw [List.filterMap_cons_some hpo, List.filter_cons_of_neg (by simp [hmatch])]
            exact ihres

/-- Evaluating one pair comparison when the first source is the cheaper one. -/
lemma pairOpportunity_eval_lt {θ : ℚ} {a b : SourcePrice}
    (h0 : 0 < a.price) (hlt : a.price < b.price) :
    pairOpportunity θ a b =
      if θ ≤ (b.price - a.price) / a.price then
        some { buy_source := a.source, sell_source := b.source,
               buy_price := a.price, sell_price := b.price,
               price_diff_pct := (b.price - a.price) / a.price }
      else none := by
  have hmin : min a.price b.price = a.price := min_eq_left hlt.le
  have hmax : max a.price b.price = b.price := max_eq_right hlt.le
  simp [pairOpportunity, hmin, hmax, h0, hlt]

/-- Evaluating one pair comparison when the second source is the cheaper one. -/
lemma pairOpportunity_eval_gt {θ : ℚ} {a b : SourcePrice}
    (h0 : 0 < a.price) (hlt : a.price < b.price) :
    pairOpportunity θ b a =
      if θ ≤ (b.price - a.price) / a.price then
        some { buy_source := a.source, sell_source := b.source,
               buy_price := a.price, sell_price := b.price,
               price_diff_pct := (b.price - a.price) / a.price }
      else none := by
  have hmin : min b.price a.price = a.price := min_eq_right hlt.le
  have hmax : max b.price a.price = b.price := max_eq_left hlt.le
  simp [pairOpportunity, hmin, hmax, h0, not_lt_of_gt hlt]

end RedstoneGw

namespace RedstoneGw

/-- C1: for every symbol snapshot and every unordered pair of sources with
prices `0 < p1 < p2`, `_find_arbitrage_opportunities` emits exactly one
opportunity for that pair precisely when `(p2 - p1) / p1` reaches the profit
threshold (inclusive), buying at the `p1` source and selling at the `p2`
source; a pair strictly below the threshold yields no opportunity. -/
theorem detector_pair_emission (θ : ℚ) (ps : List SourcePrice) (q1 q2 : SourcePrice)
    (hnd : (ps.map SourcePrice.source).Nodup)
    (h1 : q1 ∈ ps) (h2 : q2 ∈ ps)
    (hp0 : 0 < q1.price) (hplt : q1.price < q2.price) :
    (find_arbitrage_opportunities θ ps).filter (pairMatches q1.source q2.source)
      = if θ ≤ (q2.price - q1.price) / q1.price
        then [{ buy_source := q1.source, sell_source := q2.source,
                buy_price := q1.price, sell_price := q2.price,
                price_diff_pct := (q2.price - q1.price) / q1.price }]
        else [] := by
  have hq12 : q1 ≠ q2 := fun h => absurd (h ▸ hplt) (lt_irrefl _)
  have hneq : q1.source ≠ q2.source := fun h =>
    hq12 (List.inj_on_of_nodup_map hnd h1 h2 h)
  revert hnd h1 h2
  induction ps with
  | nil =>
      intro hnd h1 h2
      exact absurd h1 (List.not_mem_nil q1)
  | cons s rest ih =>
      intro hnd h1 h2
      simp only [List.map_cons, List.nodup_cons] at hnd
      simp only [find_arbitrage_opportunities, List.filter_append]
      rcases List.mem_cons.mp h1 with rfl | hm1
      · -- the outer source `s` is the cheap venue `q1`
        have h2r : q2 ∈ rest := by
          rcases List.mem_cons.mp h2 with h | h
          · exact absurd (congrArg SourcePrice.source h.symm) hneq
          · exact h
        rw [head_contrib hnd.2 h2r hneq hnd.1, pairOpportunity_eval_lt hp0 hplt,
          filter_find_nil_left hnd.1, List.append_nil]
        by_cases hθ : θ ≤ (q2.price - q1.price) / q1.price
        · simp [hθ]
        · simp [hθ]
      · rcases List.mem_cons.mp h2 with rfl | hm2
        · -- the outer source `s` is the costly venue `q2`
          have hfun : pairMatches q1.source q2.source = pairMatches q2.source q1.source :=
            funext (pairMatches_symm q1.source q2.source)
          rw [hfun, head_contrib hnd.2 hm1 (Ne.symm hneq) hnd.1,
            pairOpportunity_eval_gt hp0 hplt, filter_find_nil_left hnd.1, List.append_nil]
          by_cases hθ : θ ≤ (q2.price - q1.price) / q1.price
          · simp [hθ]
          · simp [hθ]
        · -- both venues of the pair are further along the iteration
          have hs1 : s.source ≠ q1.source := fun h => hnd.1 (h ▸ List.mem_map_of_mem _ hm1)
          have hs2 : s.source ≠ q2.source := fun h => hnd.1 (h ▸ List.mem_map_of_mem _ hm2)
          have hleft : (rest.filterMap (pairOpportunity θ s)).filter
              (pairMatches q1.source q2.source) = [] := by
            rw [List.filter_eq_nil_iff]
            intro o ho
            rcases List.mem_filterMap.mp ho with ⟨t, ht, hsome⟩
            rw [Bool.not_eq_true, Bool.eq_false_iff]
            intro hm
            rcases pairMatches_iff.mp hm with ⟨hb, hs⟩ | ⟨hb, hs⟩ <;>
              rcases pairOpportunity_sources hsome with ⟨hb2, hs2'⟩ | ⟨hb2, hs2'⟩
            · exact hs1 (hb2.symm.trans hb)
            · exact hs2 (hs2'.symm.trans hs)
            · exact hs2 (hb2.symm.trans hb)
            · exact hs1 (hs2'.symm.trans hs)
          rw [hleft, List.nil_append]
          exact ih hnd.2 hm1 hm2

/-- Witness for C1 at the spec's own scenario: venues A at 100.00 and
B at 100.30 with threshold 0.002 give exactly the opportunity
buy A, sell B with profit 0.003. -/
theorem detector_pair_emission_witness :
    (find_arbitrage_opportunities (1 / 500)
        [{ source := "A", price := 100 }, { source := "B", price := 1003 / 10 }]).filter
        (pairMatches ("A") ("B"))
      = [{ buy_source := "A", sell_source := "B", buy_price := 100,
           sell_price := 1003 / 10, price_diff_pct := 3 / 1000 }] := by
  have h := detector_pair_emission (1 / 500)
    [{ source := "A", price := 100 }, { source := "B", price := 1003 / 10 }]
    { source := "A", price := 100 } { source := "B", price := 1003 / 10 }
    (by decide) (by simp) (by simp) (by norm_num) (by norm_num)
  norm_num at h
  exact h

end RedstoneGw

namespace FeedConn

/-- `_reconnect` failure update (both websocket clients):
`backoff = min(backoff * 2, max_backoff)` with `max_backoff = 60`. -/
def nextBackoff (backoff : ℕ) : ℕ := min (backoff * 2) 60

/-- The delay slept before the `(n+1)`-st reconnect attempt; the loop enters
with `backoff = 1` and applies `nextBackoff` after every failed attempt. -/
def backoffAt : ℕ → ℕ
  | 0 => 1
  | n + 1 => nextBackoff (backoffAt n)

/-- The `while True` loop of `_reconnect`, driven by an oracle giving the
result of the `_connect` call of each attempt; `fuel` bounds how many
iterations are observed.  Each iteration sleeps the current backoff, then
attempts to connect: on success the task clears `_reconnect_task` and ends,
returning the delays slept; on failure the backoff is doubled (capped) and
the loop repeats.  `none` means the loop is still retrying after `fuel`
attempts. -/
def reconnectRun (connectOk : ℕ → Bool) : ℕ → ℕ → ℕ → Option (List ℕ)
  | _, _, 0 => none
  | k, backoff, fuel + 1 =>
      if connectOk k then
        some [backoff]
      else
        (reconnectRun connectOk (k + 1) (nextBackoff backoff) fuel).map (backoff :: ·)

lemma backoffAt_eq (n : ℕ) : backoffAt n = min (2 ^ n) 60 := by
  induction n with
  | zero => simp [backoffAt]
  | succ n ih =>
      rw [backoffAt, ih, nextBackoff, pow_succ]
      generalize (2 : ℕ) ^ n = a
      omega

lemma backoffAt_iterate (n : ℕ) : backoffAt n = nextBackoff^[n] 1 := by
  induction n with
  | zero => simp [backoffAt]
  | succ n ih => rw [backoffAt, ih, Function.iterate_succ_apply']

lemma reconnectRun_first_success (connectOk : ℕ → Bool) (j : ℕ) :
    ∀ fuel k b, j < fuel → (∀ i, i < j → connectOk (k + i) = false) →
      connectOk (k + j) = true →
      reconnectRun connectOk k b fuel =
        some ((List.range (j + 1)).map (fun i => nextBackoff^[i] b)) := by
  induction j with
  | zero =>
      intro fuel k b hfuel _ hok
      cases fuel with
      | zero => omega
      | succ fuel =>
          rw [Nat.add_zero] at hok
          simp [reconnectRun, hok]
  | succ j ihj =>
      intro fuel k b hfuel hfail hok
      cases fuel with
      | zero => omega
      | succ fuel =>
          have h0 : connectOk k = false := by
            have h := hfail 0 (Nat.succ_pos j)
            rwa [Nat.add_zero] at h
          have hfail' : ∀ i, i < j → connectOk (k + 1 + i) = false := by
            intro i hi
            have h := hfail (i + 1) (by omega)
            rwa [show k + (i + 1) = k + 1 + i by omega] at h
          have hok' : connectOk (k + 1 + j) = true := by
            rwa [show k + (j + 1) = k + 1 + j by omega] at hok
          rw [reconnectRun, if_neg (by simp [h0]),
            ihj fuel (k + 1) (nextBackoff b) (by omega) hfail' hok']
          simp [List.range_succ_eq_map, List.map_map, Function.comp_def,
            Function.iterate_succ_apply]

lemma reconnectRun_no_success (connectOk : ℕ → Bool)
    (hfail : ∀ i, connectOk i = false) :
    ∀ fuel k b, reconnectRun connectOk k b fuel = none := by
  intro fuel
  induction fuel with
  | zero => intro k b; rfl
  | succ fuel ih => intro k b; simp [reconnectRun, hfail k, ih]

/-- C2: after a connection loss the delays of consecutive failed reconnect
attempts are `1, 2, 4, 8, 16, 32, 60, 60, …` — starting at 1, doubling per
failure, never decreasing and capped at 60; the loop retries for ever while
`_connect` keeps failing, and ends exactly when a connect succeeds, having
slept the capped doubling sequence. -/
theorem reconnect_backoff (connectOk : ℕ → Bool) (n j fuel : ℕ) :
    backoffAt n = min (2 ^ n) 60 ∧
    backoffAt n ≤ backoffAt (n + 1) ∧
    backoffAt n ≤ 60 ∧
    (List.range 8).map backoffAt = [1, 2, 4, 8, 16, 32, 60, 60] ∧
    ((∀ i, i < j → connectOk i = false) → connectOk j = true → j < fuel →
      reconnectRun connectOk 0 1 fuel = some ((List.range (j + 1)).map backoffAt)) ∧
    ((∀ i, connectOk i = false) → reconnectRun connectOk 0 1 fuel = none) := by
  refine ⟨backoffAt_eq n, ?_, ?_, by decide, ?_, ?_⟩
  · rw [backoffAt_eq, backoffAt_eq]
    have h : (2 : ℕ) ^ n ≤ 2 ^ (n + 1) := Nat.pow_le_pow_right (by norm_num) (Nat.le_succ n)
    generalize (2 : ℕ) ^ n = a at *
    generalize (2 : ℕ) ^ (n + 1) = b at *
    omega
  · rw [backoffAt_eq]
    exact min_le_right _ _
  · intro hfail hok hfuel
    have h := reconnectRun_first_success connectOk j fuel 0 1 hfuel
      (by intro i hi; simpa using hfail i hi) (by simpa using hok)
    rw [h]
    congr 1
    exact List.map_congr_left (fun i _ => (backoffAt_iterate i).symm)
  · intro hfail
    exact reconnectRun_no_success connectOk hfail fuel 0 1

/-- Witness for C2: with the first two connect attempts failing and the
third succeeding, the reconnect task ends after sleeping `[1, 2, 4]`;
with every attempt failing, it is still retrying after 4 attempts. -/
theorem reconnect_backoff_witness :
    reconnectRun (fun i => decide (i = 2)) 0 1 4 = some [1, 2, 4] ∧
    reconnectRun (fun _ => false) 0 1 4 = none := by
  constructor
  · have h := (reconnect_backoff (fun i => decide (i = 2)) 0 2 4).2.2.2.2.1
      (by decide) (by decide) (by decide)
    rw [h]
    decide
  · exact (reconnect_backoff (fun _ => false) 0 0 4).2.2.2.2.2 (fun i => rfl)

/-- State of a websocket data client as manipulated by `_disconnect`:
a task handle is `some true` (scheduled and live), `some false` (cancelled)
or `none` (never created / already cleared):
the heartbeat task handle, the reconnect task handle, and the transport
(`some ()` = an open websocket object, `none` = `self._websocket = None`). -/
structure ClientState where
  heartbeat_task : Option Bool
  reconnect_task : Option Bool
  websocket : Option Unit
deriving DecidableEq, Repr

/-- `task.cancel()` on an optional task handle, as guarded by
`if self._heartbeat_task:`. -/
def cancelTask : Option Bool → Option Bool
  | some _ => some false
  | none => none

/-- `_disconnect` of `hyperliquid_client.py` / `redstone_client.py`:
cancels the heartbeat task when present, closes and clears the websocket
when present, and returns; it never touches `_reconnect_task`, and no
branch raises. -/
def client_disconnect (s : ClientState) : ClientState :=
  { heartbeat_task := cancelTask s.heartbeat_task,
    reconnect_task := s.reconnect_task,
    websocket := none }

/-- A fully live client: heartbeat running, a reconnect attempt in flight,
transport open. -/
def liveClientState : ClientState :=
  { heartbeat_task := some true, reconnect_task := some true, websocket := some () }

/-- C6 counterexample: from a state with an in-flight reconnect task,
`_disconnect` leaves that task running (`some true`), so it does not cancel
any in-flight reconnect task as the claim requires. -/
theorem disconnect_reconnect_counterexample :
    (client_disconnect liveClientState).reconnect_task = some true := rfl

/-- C6 amended: calling `_disconnect` from any state leaves no running
heartbeat task and no open transport, never raises (it is a total function
of the state), but leaves the reconnect task exactly as it was: an in-flight
reconnect task is not cancelled.  (The `Disconnected` state transition
itself is performed by the hosting framework around this hook.) -/
theorem disconnect_amended (s : ClientState) :
    (client_disconnect s).heartbeat_task ≠ some true ∧
    (client_disconnect s).websocket = none ∧
    (client_disconnect s).reconnect_task = s.reconnect_task := by
  refine ⟨?_, rfl, rfl⟩
  cases h : s.heartbeat_task with
  | none => simp [client_disconnect, cancelTask, h]
  | some b => simp [client_disconnect, cancelTask, h]

end FeedConn

namespace Strategy

/-- The `ArbitrageOpportunity` data record of `arbitrage_data_client.py`. -/
structure ArbitrageOpportunity where
  symbol : String
  hyperliquid_price : ℚ
  binance_price : ℚ
  price_difference : ℚ
  percentage_difference : ℚ
  direction : String
  source : String
  timestamp_ns : ℤ
deriving DecidableEq, Repr

/-- `_should_execute_arbitrage`: reject below the strategy-level profit
threshold; otherwise compute
`opportunity_age_ms = (current_time - timestamp_ns) / 1_000_000`
(Python true division, exact here) and reject when it exceeds 5000 ms. -/
def should_execute_arbitrage (min_profit_threshold : ℚ) (now : ℤ)
    (opp : ArbitrageOpportunity) : Bool :=
  if opp.percentage_difference < min_profit_threshold then
    false
  else
    let opportunity_age_ms : ℚ := ((now - opp.timestamp_ns : ℤ) : ℚ) / 1000000
    if opportunity_age_ms > 5000 then
      false
    else
      true

/-- `_handle_arbitrage_opportunity`: run the gate checks, then reject a
symbol that already has an active engagement, otherwise execute and record
the engagement (`self._active_arbitrages[opportunity.symbol] = {...}`; the
dict is modelled by its key list).  Returns the new key list and whether
the opportunity was executed. -/
def handle_arbitrage_opportunity (min_profit_threshold : ℚ) (now : ℤ)
    (active : List String) (opp : ArbitrageOpportunity) : List String × Bool :=
  if ¬ should_execute_arbitrage min_profit_threshold now opp then
    (active, false)
  else if opp.symbol ∈ active then
    (active, false)
  else
    (opp.symbol :: active, true)

/-- `_close_all_positions` (called from `on_stop`): deletes every key of
`_active_arbitrages`. -/
def close_all_positions (_active : List String) : List String := []

/-- The events the strategy observes.  `ArbitrageStrategy` defines handlers
only for data (`on_data` → `_handle_arbitrage_opportunity`) and stop
(`on_stop` → `_close_all_positions`); it defines no order-event handler, so
a terminal fill/reject event reaches only the framework base class, which
cannot touch the subclass dict `_active_arbitrages`. -/
inductive StrategyEvent
  | opportunity (now : ℤ) (opp : ArbitrageOpportunity)
  | orderFilled (symbol : String)
  | orderRejected (symbol : String)
  | stop

/-- One observed event's effect on the set of engaged symbols. -/
def strategy_step (min_profit_threshold : ℚ) (active : List String) :
    StrategyEvent → List String
  | .opportunity now opp =>
      (handle_arbitrage_opportunity min_profit_threshold now active opp).1
  | .orderFilled _ => active
  | .orderRejected _ => active
  | .stop => close_all_positions active

/-- C3: the gate rejects any opportunity whose age exceeds 5 seconds
(5·10⁹ ns) no matter its profit, and does not reject for staleness at the
boundary: an opportunity aged exactly 5 seconds that passes the profit
check is accepted (the comparison `opportunity_age_ms > 5000` is strict). -/
theorem gate_staleness (min_profit_threshold : ℚ) (now : ℤ)
    (opp : ArbitrageOpportunity) :
    (5000000000 < now - opp.timestamp_ns →
      should_execute_arbitrage min_profit_threshold now opp = false) ∧
    (now - opp.timestamp_ns = 5000000000 →
      min_profit_threshold ≤ opp.percentage_difference →
      should_execute_arbitrage min_profit_threshold now opp = true) := by
  constructor
  · intro hage
    by_cases hp : opp.percentage_difference < min_profit_threshold
    · simp [should_execute_arbitrage, hp]
    · have hc : (5000000000 : ℚ) < (now : ℚ) - (opp.timestamp_ns : ℚ) := by
        exact_mod_cast hage
      have h5 : (5000 : ℚ) < ((now : ℚ) - (opp.timestamp_ns : ℚ)) / 1000000 := by
        rw [lt_div_iff₀ (by norm_num)]
        linarith
      simp [should_execute_arbitrage, hp, h5]
  · intro heq hp
    have hnlt : ¬ opp.percentage_difference < min_profit_threshold := not_lt.mpr hp
    have hcast : (now : ℚ) - (opp.timestamp_ns : ℚ) = 5000000000 := by
      exact_mod_cast heq
    have hage : ¬ ((5000 : ℚ) < ((now : ℚ) - (opp.timestamp_ns : ℚ)) / 1000000) := by
      rw [hcast]
      norm_num
    simp [should_execute_arbitrage, hnlt, hage]

/-- A fresh profitable opportunity on symbol BTC, detected at time 0. -/
def oppFresh : ArbitrageOpportunity :=
  { symbol := "BTC", hyperliquid_price := 100, binance_price := 101,
    price_difference := 1, percentage_difference := 1,
    direction := "BUY_HL_SELL_BN", source := "REST", timestamp_ns := 0 }

/-- Witness for C3: at age 6 s the gate rejects despite ample profit; at age
exactly 5 s it accepts. -/
theorem gate_staleness_witness :
    should_execute_arbitrage (1 / 2) 6000000000 oppFresh = false ∧
    should_execute_arbitrage (1 / 2) 5000000000 oppFresh = true := by
  constructor
  · exact (gate_staleness (1 / 2) 6000000000 oppFresh).1 (by norm_num [oppFresh])
  · exact (gate_staleness (1 / 2) 5000000000 oppFresh).2 (by norm_num [oppFresh])
      (by norm_num [oppFresh])

/-- C4 counterexample: after the gate admits an opportunity for BTC, a
terminal `orderFilled` outcome for BTC leaves the engagement record in
place (`["BTC"]`), so the record is not cleared when the execution reaches
a terminal outcome, contrary to the claim. -/
theorem gate_terminal_outcome_counterexample :
    strategy_step 0 (strategy_step 0 [] (StrategyEvent.opportunity 5000000000 oppFresh))
        (StrategyEvent.orderFilled ("BTC")) = ["BTC"] := by
  have hexec : should_execute_arbitrage 0 5000000000 oppFresh = true := by
    norm_num [should_execute_arbitrage, oppFresh]
  simp [strategy_step, handle_arbitrage_opportunity, hexec]
  rfl

/-- C4 amended: the gate tracks at most one active engagement per symbol
(the engaged-symbol key list stays duplicate-free), an opportunity for an
already-engaged symbol is rejected without executing, and the record is
cleared only by explicit close-all (`on_stop`): terminal fill/reject
outcomes leave the active set unchanged because the strategy defines no
order-event handler. -/
theorem gate_engagement_amended (min_profit_threshold : ℚ) (now : ℤ)
    (active : List String) (opp : ArbitrageOpportunity) (s : String) :
    (active.Nodup →
      ((handle_arbitrage_opportunity min_profit_threshold now active opp).1).Nodup) ∧
    (opp.symbol ∈ active →
      handle_arbitrage_opportunity min_profit_threshold now active opp = (active, false)) ∧
    strategy_step min_profit_threshold active StrategyEvent.stop = [] ∧
    strategy_step min_profit_threshold active (StrategyEvent.orderFilled s) = active ∧
    strategy_step min_profit_threshold active (StrategyEvent.orderRejected s) = active := by
  refine ⟨?_, ?_, rfl, rfl, rfl⟩
  · intro hnd
    unfold handle_arbitrage_opportunity
    by_cases hg : should_execute_arbitrage min_profit_threshold now opp
    · by_cases hmem : opp.symbol ∈ active
      · simp [hg, hmem, hnd]
      · simp [hg, hmem, hnd]
    · simp [hg, hnd]
  · intro hmem
    unfold handle_arbitrage_opportunity
    by_cases hg : should_execute_arbitrage min_profit_threshold now opp
    · simp [hg, hmem]
    · simp [hg]

/-- Witness for the amended C4: with BTC already engaged, a second BTC
opportunity is rejected and the engagement list stays duplicate-free. -/
theorem gate_engagement_amended_witness :
    ((handle_arbitrage_opportunity 0 5000000000 ["BTC"] oppFresh).1).Nodup ∧
    handle_arbitrage_opportunity 0 5000000000 ["BTC"] oppFresh = (["BTC"], false) := by
  constructor
  · exact (gate_engagement_amended 0 5000000000 ["BTC"] oppFresh ("X")).1 (by decide)
  · exact (gate_engagement_amended 0 5000000000 ["BTC"] oppFresh ("X")).2.1 (by decide)

end Strategy

namespace DataClient

/-- One record of the `arbitrage_export_latest.json` export file read by
`_fetch_new_opportunities`. -/
structure ExportRecord where
  symbol : String
  hyperliquidPrice : ℚ
  binancePrice : ℚ
  priceDifference : ℚ
  percentageDifference : ℚ
  direction : String
  source : String
  timestamp : ℚ
deriving DecidableEq, Repr

/-- Python `int(x)` on a float: truncation toward zero. -/
def intTrunc (q : ℚ) : ℤ := if 0 ≤ q then ⌊q⌋ else ⌈q⌉

/-- Construction of the published `ArbitrageOpportunity` from a record,
with `timestamp_ns = int(record['timestamp'] * 1_000_000)`. -/
def mkOpportunity (r : ExportRecord) : Strategy.ArbitrageOpportunity :=
  { symbol := r.symbol, hyperliquid_price := r.hyperliquidPrice,
    binance_price := r.binancePrice, price_difference := r.priceDifference,
    percentage_difference := r.percentageDifference, direction := r.direction,
    source := r.source, timestamp_ns := intTrunc (r.timestamp * 1000000) }

/-- The record loop of `_fetch_new_opportunities`: a record is converted
exactly when `record['timestamp'] > self._last_processed_timestamp`; the
watermark is then raised with
`max(self._last_processed_timestamp, record['timestamp'])`.  Returns the
final watermark and the converted opportunities in file order. -/
def fetch_new_opportunities (w : ℚ) :
    List ExportRecord → ℚ × List Strategy.ArbitrageOpportunity
  | [] => (w, [])
  | r :: rs =>
      if w < r.timestamp then
        let p := fetch_new_opportunities (max w r.timestamp) rs
        (p.1, mkOpportunity r :: p.2)
      else
        fetch_new_opportunities w rs

/-- The same loop, instrumented to return the records that were converted
(rather than the built opportunity objects); `fetch_converted_spec` relates
it to `fetch_new_opportunities`. -/
def fetch_converted (w : ℚ) : List ExportRecord → ℚ × List ExportRecord
  | [] => (w, [])
  | r :: rs =>
      if w < r.timestamp then
        let p := fetch_converted (max w r.timestamp) rs
        (p.1, r :: p.2)
      else
        fetch_converted w rs

/-- The client lifetime of `_poll_arbitrage_opportunities`: one fetch per
poll, the watermark `_last_processed_timestamp` carried across polls, the
published opportunities concatenated in poll order. -/
def poll_run (w : ℚ) :
    List (List ExportRecord) → ℚ × List Strategy.ArbitrageOpportunity
  | [] => (w, [])
  | file :: files =>
      let p := fetch_new_opportunities w file
      let q := poll_run p.1 files
      (q.1, p.2 ++ q.2)

/-- Lifetime run instrumented with converted records, as `fetch_converted`. -/
def poll_converted (w : ℚ) : List (List ExportRecord) → ℚ × List ExportRecord
  | [] => (w, [])
  | file :: files =>
      let p := fetch_converted w file
      let q := poll_converted p.1 files
      (q.1, p.2 ++ q.2)

lemma fetch_converted_spec (rs : List ExportRecord) : ∀ w,
    (fetch_new_opportunities w rs).1 = (fetch_converted w rs).1 ∧
    (fetch_new_opportunities w rs).2 = (fetch_converted w rs).2.map mkOpportunity := by
  induction rs with
  | nil => intro w; exact ⟨rfl, rfl⟩
  | cons r rs ih =>
      intro w
      by_cases h : w < r.timestamp
      · obtain ⟨ih1, ih2⟩ := ih (max w r.timestamp)
        simp only [fetch_new_opportunities, fetch_converted, h, if_true, List.map_cons]
        exact ⟨ih1, by rw [ih2]⟩
      · obtain ⟨ih1, ih2⟩ := ih w
        simp only [fetch_new_opportunities, fetch_converted, h, if_false]
        exact ⟨ih1, ih2⟩

lemma poll_run_spec (files : List (List ExportRecord)) : ∀ w,
    (poll_run w files).1 = (poll_converted w files).1 ∧
    (poll_run w files).2 = (poll_converted w files).2.map mkOpportunity := by
  induction files with
  | nil => intro w; exact ⟨rfl, rfl⟩
  | cons file files ih =>
      intro w
      obtain ⟨f1, f2⟩ := fetch_converted_spec file w
      obtain ⟨p1, p2⟩ := ih (fetch_converted w file).1
      simp only [poll_run, poll_converted, f1, List.map_append]
      exact ⟨p1, by rw [f2, p2]⟩

/-- Single-poll watermark/ordering facts: the watermark never decreases,
every converted record strictly beat the entry watermark and is bounded by
the final one, and converted timestamps strictly increase in file order. -/
lemma fetch_converted_props (rs : List ExportRecord) : ∀ w,
    w ≤ (fetch_converted w rs).1 ∧
    (∀ r ∈ (fetch_converted w rs).2,
      w < r.timestamp ∧ r.timestamp ≤ (fetch_converted w rs).1) ∧
    ((fetch_converted w rs).2.map ExportRecord.timestamp).Pairwise (· < ·) := by
  induction rs with
  | nil =>
      intro w
      refine ⟨le_refl w, ?_, ?_⟩
      · intro r hr
        exact absurd hr (List.not_mem_nil r)
      · exact List.Pairwise.nil
  | cons r rs ih =>
      intro w
      by_cases h : w < r.timestamp
      · obtain ⟨ih1, ih2, ih3⟩ := ih (max w r.timestamp)
        simp only [fetch_converted, h, if_true, List.map_cons]
        refine ⟨le_trans (le_max_left w r.timestamp) ih1, ?_, ?_⟩
        · intro t ht
          rcases List.mem_cons.mp ht with rfl | ht'
          · exact ⟨h, le_trans (le_max_right w t.timestamp) ih1⟩
          · obtain ⟨h1, h2⟩ := ih2 t ht'
            exact ⟨lt_of_le_of_lt (le_max_left w r.timestamp) h1, h2⟩
        · refine List.pairwise_cons.mpr ⟨?_, ih3⟩
          intro t' ht'
          rcases List.mem_map.mp ht' with ⟨u, hu, rfl⟩
          exact lt_of_le_of_lt (le_max_right w r.timestamp) (ih2 u hu).1
      · obtain ⟨ih1, ih2, ih3⟩ := ih w
        simp only [fetch_converted, h, if_false]
        exact ⟨ih1, ih2, ih3⟩

/-- Lifetime watermark/ordering facts across polls. -/
lemma poll_converted_props (files : List (List ExportRecord)) : ∀ w,
    w ≤ (poll_converted w files).1 ∧
    (∀ r ∈ (poll_converted w files).2,
      w < r.timestamp ∧ r.timestamp ≤ (poll_converted w files).1) ∧
    ((poll_converted w files).2.map ExportRecord.timestamp).Pairwise (· < ·) := by
  induction files with
  | nil =>
      intro w
      refine ⟨le_refl w, ?_, List.Pairwise.nil⟩
      intro r hr
      exact absurd hr (List.not_mem_nil r)
  | cons file files ih =>
      intro w
      obtain ⟨f1, f2, f3⟩ := fetch_converted_props file w
      obtain ⟨p1, p2, p3⟩ := ih (fetch_converted w file).1
      simp only [poll_converted, List.map_append]
      refine ⟨le_trans f1 p1, ?_, ?_⟩
      · intro r hr
        rcases List.mem_append.mp hr with hr | hr
        · obtain ⟨h1, h2⟩ := f2 r hr
          exact ⟨h1, le_trans h2 p1⟩
        · obtain ⟨h1, h2⟩ := p2 r hr
          exact ⟨lt_of_le_of_lt f1 h1, h2⟩
      · refine List.pairwise_append.mpr ⟨f3, p3, ?_⟩
        intro a ha b hb
        rcases List.mem_map.mp ha with ⟨u, hu, rfl⟩
        rcases List.mem_map.mp hb with ⟨v, hv, rfl⟩
        exact lt_of_le_of_lt (f2 u hu).2 (p2 v hv).1

/-- C9: over any sequence of polls, the `_last_processed_timestamp`
watermark is non-decreasing, a record is converted into an
`ArbitrageOpportunity` only when its timestamp strictly exceeds the
watermark, and the timestamps of the published records strictly increase
over the client lifetime — hence any given timestamp is published at most
once, so records with distinct timestamps are each published at most once. -/
theorem watermark_publish_once (w : ℚ) (files : List (List ExportRecord)) (t : ℚ) :
    w ≤ (poll_run w files).1 ∧
    (poll_run w files).2 = (poll_converted w files).2.map mkOpportunity ∧
    (∀ r ∈ (poll_converted w files).2, w < r.timestamp) ∧
    ((poll_converted w files).2.map ExportRecord.timestamp).Pairwise (· < ·) ∧
    ((poll_converted w files).2.map ExportRecord.timestamp).count t ≤ 1 := by
  obtain ⟨hs1, hs2⟩ := poll_run_spec files w
  obtain ⟨p1, p2, p3⟩ := poll_converted_props files w
  refine ⟨by rw [hs1]; exact p1, hs2, fun r hr => (p2 r hr).1, p3, ?_⟩
  have hnd : ((poll_converted w files).2.map ExportRecord.timestamp).Nodup :=
    p3.imp (fun h => ne_of_lt h)
  exact List.nodup_iff_count_le_one.mp hnd t

/-- The publish filter of `_poll_arbitrage_opportunities`:
`if opp.symbol in self._subscribed_symbols or not self._subscribed_symbols`. -/
def poll_publish (subscribed : Finset String)
    (opps : List Strategy.ArbitrageOpportunity) : List Strategy.ArbitrageOpportunity :=
  opps.filter (fun opp => decide (opp.symbol ∈ subscribed) || decide (subscribed = ∅))

/-- `subscribe_arbitrage_opportunities`: a truthy (non-empty) symbol list is
added to the subscription set; `None` or an empty list (both falsy in
`if symbols:`) clears the set. -/
def subscribe_arbitrage_opportunities (subscribed : Finset String) :
    Option (List String) → Finset String
  | some (s :: rest) => subscribed ∪ (s :: rest).toFinset
  | some [] => ∅
  | none => ∅

/-- C10: with an empty subscription set every fetched opportunity is
published; with a non-empty set an opportunity is published exactly when its
symbol is subscribed (the disjunction below specializes to both cases); and
calling `subscribe_arbitrage_opportunities` with no symbol list clears the
set, switching the client to publish-all. -/
theorem subscription_filter (subscribed : Finset String)
    (opps : List Strategy.ArbitrageOpportunity) (opp : Strategy.ArbitrageOpportunity) :
    (opp ∈ poll_publish subscribed opps ↔
      opp ∈ opps ∧ (subscribed = ∅ ∨ opp.symbol ∈ subscribed)) ∧
    subscribe_arbitrage_opportunities subscribed none = ∅ := by
  constructor
  · simp [poll_publish, List.mem_filter, or_comm]
  · rfl

end DataClient

namespace MockExec

/-- An order as seen by the simulator: the optional limit price
(`order.price` when the attribute exists and is truthy) and the quantity. -/
structure Order where
  price : Option ℚ
  quantity : ℚ
deriving DecidableEq, Repr

/-- What `_simulate_order_fill` resolves after the fixed 0.1 s delay:
a rejection event, a fill event, or — in the remaining branch — only a
"not filled (market conditions)" log line, with no terminal event. -/
inductive SimOutcome
  | rejected (reason : String)
  | filled (price : ℚ)
  | noFill
deriving DecidableEq, Repr

/-- The fill price of `_simulate_order_fill_event`: the order's limit price
when present, else the mock reference price 50000.00, times the slippage
factor `1 + random.uniform(-0.0005, 0.0005)` (the draw is `slip`). -/
def fill_price (order : Order) (slip : ℚ) : ℚ :=
  (order.price.getD 50000) * (1 + slip)

/-- `_simulate_order_fill`: the first draw `random.random()` triggers
`_simulate_order_rejection` when below 0.05; otherwise a second independent
draw triggers `_simulate_order_fill_event` when below 0.95 and the
no-terminal-event branch otherwise. -/
def simulate_order_fill (r1 r2 slip : ℚ) (order : Order) : SimOutcome :=
  if r1 < 1 / 20 then
    SimOutcome.rejected ("Insufficient margin (simulated rejection)")
  else if r2 < 19 / 20 then
    SimOutcome.filled (fill_price order slip)
  else
    SimOutcome.noFill

/-- A limit order at price 100. -/
def limitOrder : Order := { price := some 100, quantity := 1 }

/-- C5 counterexample: with first draw 0.5 (no rejection) and second draw
0.975, the simulator emits no terminal outcome at all — the submitted order
is neither rejected nor filled, refuting "a rejection with probability 5%
of the pseudo-random draw, and otherwise a fill". -/
theorem simulator_no_terminal_counterexample :
    simulate_order_fill (1 / 2) (39 / 40) 0 limitOrder = SimOutcome.noFill ∧
    SimOutcome.noFill ≠ SimOutcome.filled (fill_price limitOrder 0) ∧
    SimOutcome.noFill ≠
      SimOutcome.rejected ("Insufficient margin (simulated rejection)") := by
  refine ⟨?_, by simp, by simp⟩
  norm_num [simulate_order_fill]

/-- C5 amended: after the fixed simulated delay the simulator resolves as
follows — first draw < 0.05: a rejection with reason "Insufficient margin
(simulated rejection)"; otherwise, second draw < 0.95: a fill at (the
order's limit price when present, else the configured reference 50000)
times `1 + slip`, where the slippage draw `slip` lies in the symmetric band
±0.05%, bounding the deviation from the base price by 0.05%; otherwise
(second draw ≥ 0.95, ≈4.75% of submissions) no terminal outcome is emitted
and the order never reaches filled or rejected. -/
theorem simulator_outcomes (r1 r2 slip : ℚ) (order : Order) :
    (r1 < 1 / 20 →
      simulate_order_fill r1 r2 slip order
        = SimOutcome.rejected ("Insufficient margin (simulated rejection)")) ∧
    (1 / 20 ≤ r1 → r2 < 19 / 20 →
      simulate_order_fill r1 r2 slip order
        = SimOutcome.filled ((order.price.getD 50000) * (1 + slip))) ∧
    (1 / 20 ≤ r1 → 19 / 20 ≤ r2 →
      simulate_order_fill r1 r2 slip order = SimOutcome.noFill) ∧
    (-(1 / 2000) ≤ slip → slip ≤ 1 / 2000 → 0 < order.price.getD 50000 →
      |fill_price order slip - order.price.getD 50000|
        ≤ (order.price.getD 50000) / 2000) := by
  refine ⟨?_, ?_, ?_, ?_⟩
  · intro h1
    unfold simulate_order_fill
    rw [if_pos h1]
  · intro h1 h2
    unfold simulate_order_fill
    rw [if_neg (not_lt.mpr h1), if_pos h2]
    rfl
  · intro h1 h2
    unfold simulate_order_fill
    rw [if_neg (not_lt.mpr h1), if_neg (not_lt.mpr h2)]
  · intro h1 h2 h3
    have hdiff : fill_price order slip - order.price.getD 50000
        = (order.price.getD 50000) * slip := by
      unfold fill_price
      ring
    rw [hdiff, abs_mul, abs_of_pos h3]
    have habs : |slip| ≤ 1 / 2000 := abs_le.mpr ⟨by linarith, h2⟩
    calc (order.price.getD 50000) * |slip|
        ≤ (order.price.getD 50000) * (1 / 2000) :=
          mul_le_mul_of_nonneg_left habs (le_of_lt h3)
      _ = (order.price.getD 50000) / 2000 := by ring

/-- Witness for the amended C5: concrete draws exercising the rejection,
fill, and no-terminal branches, and the slippage bound at a band edge. -/
theorem simulator_outcomes_witness :
    simulate_order_fill (1 / 100) 0 0 limitOrder
      = SimOutcome.rejected ("Insufficient margin (simulated rejection)") ∧
    simulate_order_fill (1 / 2) (1 / 2) 0 limitOrder = SimOutcome.filled 100 ∧
    simulate_order_fill (1 / 2) (39 / 40) 0 limitOrder = SimOutcome.noFill ∧
    |fill_price limitOrder (1 / 2000) - 100| ≤ 100 / 2000 := by
  refine ⟨?_, ?_, ?_, ?_⟩
  · exact (simulator_outcomes (1 / 100) 0 0 limitOrder).1 (by norm_num)
  · have h := (simulator_outcomes (1 / 2) (1 / 2) 0 limitOrder).2.1
      (by norm_num) (by norm_num)
    simpa [limitOrder] using h
  · exact (simulator_outcomes (1 / 2) (39 / 40) 0 limitOrder).2.2.1
      (by norm_num) (by norm_num)
  · have h := (simulator_outcomes (1 / 2) 0 (1 / 2000) limitOrder).2.2.2
      (by norm_num) (by norm_num) (by norm_num [limitOrder])
    simpa [limitOrder] using h

end MockExec

namespace Normalize

/-- A canonical quote, as built by the venue handlers (`QuoteTick`). -/
structure Quote where
  symbol : String
  venue : String
  bid_price : ℚ
  ask_price : ℚ
  bid_size : ℚ
  ask_size : ℚ
  ts_event : ℤ
  ts_init : ℤ
deriving DecidableEq, Repr

/-- Value of one decimal digit. -/
def digitVal (c : Char) : Option ℕ :=
  if c.isDigit then some (c.toNat - Char.toNat ('0')) else none

def parseDigitsAux : List Char → ℕ → Option ℕ
  | [], acc => some acc
  | c :: cs, acc =>
      match digitVal c with
      | some d => parseDigitsAux cs (acc * 10 + d)
      | none => none

/-- A non-empty all-digit run. -/
def parseDigits (cs : List Char) : Option ℕ :=
  match cs with
  | [] => none
  | _ :: _ => parseDigitsAux cs 0

/-- Split a character run at its first dot. -/
def splitAtDot : List Char → List Char × Option (List Char)
  | [] => ([], none)
  | c :: cs =>
      if c = '.' then
        ([], some cs)
      else
        let p := splitAtDot cs
        (c :: p.1, p.2)

/-- Models `Price.from_str` / `Quantity.from_str` / `float(...)`: an
optionally signed decimal numeral with an optional fractional part; any
other string fails (the source raises there; every caller catches). -/
def parseDecimal (s : String) : Option ℚ :=
  match s.toList with
  | [] => none
  | c :: rest =>
      let neg := c == '-'
      let ds := if neg then rest else c :: rest
      let p := splitAtDot ds
      match p.2 with
      | none =>
          match parseDigits p.1 with
          | some n => some (if neg then -(n : ℚ) else (n : ℚ))
          | none => none
      | some fp =>
          match parseDigits p.1, parseDigits fp with
          | some n, some f =>
              some (if neg then -((n : ℚ) + (f : ℚ) / (10 : ℚ) ^ fp.length)
                    else (n : ℚ) + (f : ℚ) / (10 : ℚ) ^ fp.length)
          | _, _ => none

/-- Python `str.replace("USDT", "")`: delete every (non-overlapping)
occurrence, scanning left to right. -/
def removeUSDT : List Char → List Char
  | 'U' :: 'S' :: 'D' :: 'T' :: rest => removeUSDT rest
  | c :: rest => c :: removeUSDT rest
  | [] => []

def replaceUSDT (s : String) : String := String.mk (removeUSDT s.toList)

/-- The raw ticker dict fields read by `_handle_ticker_data` of the Binance
client: keys `"s"`, `"b"`, `"a"`, `"B"`, `"A"`. -/
structure TickerMsg where
  s : Option String
  b : Option String
  a : Option String
  B : Option String
  A : Option String
deriving DecidableEq, Repr

/-- `_handle_ticker_data`: `ticker_data.get("s")` must be present (`None`
raises `AttributeError` on `.replace`, caught by the surrounding handler);
the price/size strings default to `"0"`/`"1"` and every parse must succeed
(`Price.from_str` raises otherwise, caught likewise); the quote carries the
clock reading `self._clock.timestamp_ns()` (= `now`) in both stamps. -/
def handle_ticker_data (venue : String) (now : ℤ) (t : TickerMsg) : Option Quote :=
  t.s.bind fun sv =>
  (parseDecimal (t.b.getD ("0"))).bind fun bid =>
  (parseDecimal (t.a.getD ("0"))).bind fun ask =>
  (parseDecimal (t.B.getD ("1"))).bind fun bidq =>
  (parseDecimal (t.A.getD ("1"))).map fun askq =>
  { symbol := replaceUSDT sv, venue := venue,
    bid_price := bid, ask_price := ask,
    bid_size := bidq, ask_size := askq,
    ts_event := now, ts_init := now }

/-- Payload of a Hyperliquid `allMids` message: the `mids` dict
(symbol → mid price string) in iteration order, and the optional `time`. -/
structure AllMidsData where
  mids : List (String × String)
  time : Option ℤ
deriving DecidableEq, Repr

/-- An inbound frame for `_process_message`: either a string that
`json.loads` rejects (raising, caught by the handler), or a parsed object
with optional `channel` and `data` members. -/
inductive HLMessage
  | malformed
  | parsed (channel : Option String) (payload : Option AllMidsData)
deriving DecidableEq, Repr

/-- One iteration of the symbol loop of `_handle_all_mids_data`, with the
raising operation explicit: skip symbols outside `SYMBOLS` (`continue`),
parse the mid price (`Price.from_str`, raising on bad input), and build a
mid-only quote with `bid = ask = mid`, zero sizes,
`ts_event = data.get("time", now)` and `ts_init = now`; no partially built
quote can escape, since the quote is constructed only after the parse. -/
def hl_mid_entry (symbols : List String) (venue : String) (now : ℤ)
    (time0 : Option ℤ) (sym pstr : String) : Except String (Option Quote) :=
  if sym ∈ symbols then
    match parseDecimal pstr with
    | none => Except.error ("Price.from_str")
    | some p =>
        Except.ok (some (Quote.mk sym venue p p 0 0 (time0.getD now) now))
  else
    Except.ok none

/-- The per-symbol `try/except` of `_handle_all_mids_data`: an exception is
logged and the loop continues with the next symbol. -/
def hl_handle_entry (symbols : List String) (venue : String) (now : ℤ)
    (time0 : Option ℤ) (sym pstr : String) : Option Quote :=
  match hl_mid_entry symbols venue now time0 sym pstr with
  | Except.ok q => q
  | Except.error _ => none

/-- `_handle_all_mids_data`: iterate the `mids` dict, publishing one quote
per surviving entry. -/
def hl_handle_all_mids (symbols : List String) (venue : String) (now : ℤ)
    (d : AllMidsData) : List Quote :=
  d.mids.filterMap (fun e => hl_handle_entry symbols venue now d.time e.1 e.2)

/-- `_process_message`: a `json.loads` failure is caught and yields nothing;
a parsed object is handled only when `data.get("channel") == "allMids"`
and `"data" in data`. -/
def hl_process_message (symbols : List String) (venue : String) (now : ℤ) :
    HLMessage → List Quote
  | HLMessage.malformed => []
  | HLMessage.parsed channel payload =>
      match channel, payload with
      | some c, some d =>
          if c = "allMids" then hl_handle_all_mids symbols venue now d else []
      | _, _ => []

/-- The frame loop of `_handle_messages`: each inbound frame is processed
in turn; a frame yielding no quote never stops the loop. -/
def hl_process_stream (symbols : List String) (venue : String) (now : ℤ) :
    List HLMessage → List Quote
  | [] => []
  | m :: ms =>
      hl_process_message symbols venue now m ++ hl_process_stream symbols venue now ms

end Normalize

namespace Normalize

/-- C7 amended: the per-venue normalizer is a pure function of the raw
message and the clock reading: processing the same raw ticker twice yields
quotes equal in every message-derived component (symbol, venue, bid/ask
price, bid/ask size); the timestamp fields are the clock reading itself, so
replays at different clock times differ exactly there. -/
theorem normalizer_pure_amended (venue : String) (now1 now2 : ℤ) (t : TickerMsg)
    (q1 q2 : Quote)
    (h1 : handle_ticker_data venue now1 t = some q1)
    (h2 : handle_ticker_data venue now2 t = some q2) :
    q1.symbol = q2.symbol ∧ q1.venue = q2.venue ∧
    q1.bid_price = q2.bid_price ∧ q1.ask_price = q2.ask_price ∧
    q1.bid_size = q2.bid_size ∧ q1.ask_size = q2.ask_size ∧
    q1.ts_event = now1 ∧ q1.ts_init = now1 ∧
    q2.ts_event = now2 ∧ q2.ts_init = now2 := by
  cases hs : t.s with
  | none => simp [handle_ticker_data, hs] at h1
  | some sv =>
      cases hb : parseDecimal (t.b.getD ("0")) with
      | none => simp [handle_ticker_data, hs, hb] at h1
      | some bid =>
          cases ha : parseDecimal (t.a.getD ("0")) with
          | none => simp [handle_ticker_data, hs, hb, ha] at h1
          | some ask =>
              cases hB : parseDecimal (t.B.getD ("1")) with
              | none => simp [handle_ticker_data, hs, hb, ha, hB] at h1
              | some bidq =>
                  cases hA : parseDecimal (t.A.getD ("1")) with
                  | none => simp [handle_ticker_data, hs, hb, ha, hB, hA] at h1
                  | some askq =>
                      simp only [handle_ticker_data, hs, hb, ha, hB, hA,
                        Option.some_bind, Option.map_some', Option.some.injEq] at h1 h2
                      subst h1
                      subst h2
                      simp

/-- A concrete Binance ticker frame for symbol BTCUSDT. -/
def tickerBTC : TickerMsg :=
  { s := some ("BTCUSDT"), b := some ("100"), a := some ("101"),
    B := some ("2"), A := some ("3") }

/-- C7 counterexample: replaying the same raw ticker message at two
different clock readings yields structurally different `Quote` values (the
clock-derived timestamp components differ), refuting that the two runs are
equal in every component. -/
theorem normalizer_clock_counterexample :
    handle_ticker_data ("BINANCE") 1 tickerBTC
      ≠ handle_ticker_data ("BINANCE") 2 tickerBTC := by
  decide

/-- The quotes produced from `tickerBTC` at clock readings 1 and 2. -/
def quoteBTC1 : Quote := Quote.mk ("BTC") ("BINANCE") 100 101 2 3 1 1

def quoteBTC2 : Quote := Quote.mk ("BTC") ("BINANCE") 100 101 2 3 2 2

/-- Witness for the amended C7 at the concrete ticker frame. -/
theorem normalizer_pure_amended_witness :
    quoteBTC1.symbol = quoteBTC2.symbol ∧ quoteBTC1.venue = quoteBTC2.venue ∧
    quoteBTC1.bid_price = quoteBTC2.bid_price ∧
    quoteBTC1.ask_price = quoteBTC2.ask_price ∧
    quoteBTC1.bid_size = quoteBTC2.bid_size ∧
    quoteBTC1.ask_size = quoteBTC2.ask_size ∧
    quoteBTC1.ts_event = 1 ∧ quoteBTC1.ts_init = 1 ∧
    quoteBTC2.ts_event = 2 ∧ quoteBTC2.ts_init = 2 :=
  normalizer_pure_amended ("BINANCE") 1 2 tickerBTC quoteBTC1 quoteBTC2
    (by decide) (by decide)

/-- C8: message processing is contained — a frame `json.loads` rejects
yields no quote; every quote emitted from an `allMids` frame is a complete
mid-only quote whose symbol lies in the configured universe and whose price
string parsed (never a partial quote); a frame whose symbols all lie outside
the universe yields no quote; and the frame loop is compositional, so a
quoteless (malformed or irrelevant) frame never stops processing of the
frames after it — no inbound frame raises into the loop, every handler
being total by construction. -/
theorem hl_message_safety (symbols : List String) (venue : String) (now : ℤ)
    (d : AllMidsData) (q : Quote) (ms1 ms2 : List HLMessage) :
    hl_process_message symbols venue now HLMessage.malformed = [] ∧
    (q ∈ hl_process_message symbols venue now
        (HLMessage.parsed (some ("allMids")) (some d)) →
      q.symbol ∈ symbols ∧ q.venue = venue ∧ q.ask_price = q.bid_price ∧
      q.bid_size = 0 ∧ q.ask_size = 0 ∧ q.ts_init = now ∧
      ∃ pstr, (q.symbol, pstr) ∈ d.mids ∧ parseDecimal pstr = some q.bid_price) ∧
    ((∀ e ∈ d.mids, e.1 ∉ symbols) →
      hl_process_message symbols venue now
        (HLMessage.parsed (some ("allMids")) (some d)) = []) ∧
    hl_process_stream symbols venue now (ms1 ++ ms2)
      = hl_process_stream symbols venue now ms1
        ++ hl_process_stream symbols venue now ms2 := by
  have hred : hl_process_message symbols venue now
      (HLMessage.parsed (some ("allMids")) (some d))
      = hl_handle_all_mids symbols venue now d := by
    simp [hl_process_message]
  refine ⟨rfl, ?_, ?_, ?_⟩
  · intro hq
    rw [hred] at hq
    rcases List.mem_filterMap.mp hq with ⟨e, he, hsome⟩
    unfold hl_handle_entry hl_mid_entry at hsome
    by_cases hmem : e.1 ∈ symbols
    · rw [if_pos hmem] at hsome
      cases hp : parseDecimal e.2 with
      | none =>
          rw [hp] at hsome
          simp at hsome
      | some p =>
          rw [hp] at hsome
          simp only [Option.some.injEq] at hsome
          subst hsome
          refine ⟨hmem, rfl, rfl, rfl, rfl, rfl, e.2, ?_, hp⟩
          exact he
    · rw [if_neg hmem] at hsome
      simp at hsome
  · intro hout
    rw [hred]
    unfold hl_handle_all_mids
    rw [List.filterMap_eq_nil_iff]
    intro e he
    unfold hl_handle_entry hl_mid_entry
    rw [if_neg (hout e he)]
  · induction ms1 with
    | nil => simp [hl_process_stream]
    | cons m ms ih => simp [hl_process_stream, ih, List.append_assoc]

/-- A concrete `allMids` payload: BTC parses, ETH is out of universe,
the second BTC entry has an unparseable price. -/
def midsMsg : AllMidsData :=
  { mids := [(("BTC"), ("100")), (("ETH"), ("101")), (("BTC"), ("1x"))], time := none }

/-- The mid-only quote produced from `midsMsg` at clock reading 5. -/
def quoteMidBTC : Quote := Quote.mk ("BTC") ("HYPERLIQUID") 100 100 0 0 5 5

/-- Witness for C8 at a concrete frame mixing good, out-of-universe and
unparseable entries. -/
theorem hl_message_safety_witness :
    quoteMidBTC.symbol ∈ [("BTC")] ∧ quoteMidBTC.venue = ("HYPERLIQUID") ∧
    quoteMidBTC.ask_price = quoteMidBTC.bid_price ∧
    quoteMidBTC.bid_size = 0 ∧ quoteMidBTC.ask_size = 0 ∧
    quoteMidBTC.ts_init = 5 ∧
    ∃ pstr, (quoteMidBTC.symbol, pstr) ∈ midsMsg.mids ∧
      parseDecimal pstr = some quoteMidBTC.bid_price :=
  (hl_message_safety [("BTC")] ("HYPERLIQUID") 5 midsMsg quoteMidBTC [] []).2.1
    (by decide)

end Normalize

namespace FeedConn

/-- Witness for the amended C6 at the fully live client state. -/
theorem disconnect_amended_witness :
    (client_disconnect liveClientState).heartbeat_task ≠ some true ∧
    (client_disconnect liveClientState).websocket = none ∧
    (client_disconnect liveClientState).reconnect_task
      = liveClientState.reconnect_task :=
  disconnect_amended liveClientState

end FeedConn

namespace DataClient

/-- Two concrete export records with distinct timestamps. -/
def recA : ExportRecord :=
  { symbol := "BTC", hyperliquidPrice := 100, binancePrice := 101,
    priceDifference := 1, percentageDifference := 1,
    direction := "BUY_HL_SELL_BN", source := "REST", timestamp := 1 }

def recB : ExportRecord :=
  { symbol := "ETH", hyperliquidPrice := 10, binancePrice := 11,
    priceDifference := 1, percentageDifference := 10,
    direction := "BUY_BN_SELL_HL", source := "REST", timestamp := 2 }

/-- Witness for C9: over two polls where the file first holds records at
timestamps 1 and 2 and the second poll re-reads the record at timestamp 1,
the converted record at timestamp 1 strictly beat the initial watermark. -/
theorem watermark_publish_once_witness : (0 : ℚ) < recA.timestamp :=
  (watermark_publish_once 0 [[recA, recB], [recA]] 1).2.2.1 recA (by decide)

/-- Witness for C10: with an empty subscription set a fetched opportunity is
published, and a subscribe call with no symbol list clears the set. -/
theorem subscription_filter_witness :
    (Strategy.oppFresh ∈ poll_publish ∅ [Strategy.oppFresh] ↔
      Strategy.oppFresh ∈ [Strategy.oppFresh] ∧
        ((∅ : Finset String) = ∅ ∨ Strategy.oppFresh.symbol ∈ (∅ : Finset String))) ∧
    subscribe_arbitrage_opportunities ∅ none = ∅ :=
  subscription_filter ∅ [Strategy.oppFresh] Strategy.oppFresh

end DataClient
